import Mathlib

/-!
Shallow embedding of the AI-Research-Analyst core (Prompt Assembler and
Response Extractor) from `src/services/geminiService.ts`, `src/utils.ts`,
`src/types.ts` and the submit/display logic of
`src/components/ResearchInterface.tsx`, together with proofs of the
specification's testable properties.

Strings are modelled as `List Char`.  JavaScript regular-expression
whitespace (`\s`), `String.prototype.trim`, `String.prototype.replace`
with a string pattern, `JSON.parse`, and the truthiness conventions used
by the source are embedded explicitly below.
-/

namespace AIRA

/-- The JavaScript `\s` / `String.prototype.trim` whitespace class:
TAB LF VT FF CR SP NBSP OGHAM plus the general-punctuation spaces,
LS, PS, NNBSP, MMSP, IDEOGRAPHIC SPACE and BOM. -/
def isJsWs (c : Char) : Bool :=
  c.val = 9 || c.val = 10 || c.val = 11 || c.val = 12 || c.val = 13 || c.val = 32 ||
  c.val = 0xa0 || c.val = 0x1680 || (0x2000 ≤ c.val && c.val ≤ 0x200a) ||
  c.val = 0x2028 || c.val = 0x2029 || c.val = 0x202f || c.val = 0x205f ||
  c.val = 0x3000 || c.val = 0xfeff

/-- JavaScript `String.prototype.trim`: drop leading and trailing `\s`. -/
def jsTrim (s : List Char) : List Char :=
  ((s.dropWhile isJsWs).reverse.dropWhile isJsWs).reverse

/-- `leadsWith pat s` holds when `pat` occurs at the front of `s`. -/
def leadsWith : List Char → List Char → Bool
  | [], _ => true
  | _ :: _, [] => false
  | p :: ps, c :: cs => p = c && leadsWith ps cs

/-- Index of the first occurrence of `pat` in `s`
(JavaScript `String.prototype.indexOf` / regex leftmost match). -/
def findSub (pat : List Char) : List Char → Option Nat
  | [] => if leadsWith pat [] then some 0 else none
  | c :: t => if leadsWith pat (c :: t) then some 0 else (findSub pat t).map (· + 1)

/-- JavaScript `s.replace(pat, '')` with a plain-string pattern:
remove the first occurrence of `pat`, or return `s` unchanged. -/
def replaceFirst (s pat : List Char) : List Char :=
  match findSub pat s with
  | none => s
  | some i => s.take i ++ s.drop (i + pat.length)

def fenceJson : List Char := "```json".data

def fence : List Char := "```".data

/--
The regex `/```json\s*([\s\S]*?)\s*```/` of `geminiService.ts:126`
applied to `s`: returns `(match[0], match[1])` for the leftmost match.
`match[0]` runs from the first occurrence of the literal fence label to
the first subsequent triple backtick; the lazy group with its greedy
`\s*` neighbours captures the enclosed content with surrounding
whitespace stripped.
-/
def findJsonBlock (s : List Char) : Option (List Char × List Char) :=
  match findSub fenceJson s with
  | none => none
  | some i =>
    let rest := s.drop (i + 7)
    match findSub fence rest with
    | none => none
    | some j => some ((s.drop i).take (7 + j + 3), jsTrim (rest.take j))

/-- JSON values as produced by `JSON.parse`.  Numeric literals keep
their raw lexeme: the source never inspects numeric values. -/
inductive JsonVal where
  | null
  | bool (b : Bool)
  | num (raw : List Char)
  | str (s : List Char)
  | arr (elems : List JsonVal)
  | obj (members : List (List Char × JsonVal))

/-- JSON grammar whitespace (space, tab, line feed, carriage return). -/
def isJsonWs (c : Char) : Bool :=
  c.val = 32 || c.val = 9 || c.val = 10 || c.val = 13

def skipJWs (s : List Char) : List Char := s.dropWhile isJsonWs

def isDigitCh (c : Char) : Bool := 48 ≤ c.val && c.val ≤ 57

def isHexCh (c : Char) : Bool :=
  (48 ≤ c.val && c.val ≤ 57) || (97 ≤ c.val && c.val ≤ 102) || (65 ≤ c.val && c.val ≤ 70)

def hexVal (c : Char) : Nat :=
  if 48 ≤ c.val.toNat && c.val.toNat ≤ 57 then c.val.toNat - 48
  else if 97 ≤ c.val.toNat && c.val.toNat ≤ 102 then c.val.toNat - 87
  else c.val.toNat - 55

/-- Body of a JSON string literal, after the opening quote: returns the
decoded characters and the input following the closing quote. -/
def parseStringBody : List Char → Option (List Char × List Char)
  | [] => none
  | c :: t =>
    if c = '"' then some ([], t)
    else if c = '\\' then
      match t with
      | [] => none
      | e :: t2 =>
        if e = '"' ∨ e = '\\' ∨ e = '/' then
          match parseStringBody t2 with
          | some (cs, rest) => some (e :: cs, rest)
          | none => none
        else if e = 'b' then
          match parseStringBody t2 with
          | some (cs, rest) => some (Char.ofNat 8 :: cs, rest)
          | none => none
        else if e = 'f' then
          match parseStringBody t2 with
          | some (cs, rest) => some (Char.ofNat 12 :: cs, rest)
          | none => none
        else if e = 'n' then
          match parseStringBody t2 with
          | some (cs, rest) => some ('\n' :: cs, rest)
          | none => none
        else if e = 'r' then
          match parseStringBody t2 with
          | some (cs, rest) => some (Char.ofNat 13 :: cs, rest)
          | none => none
        else if e = 't' then
          match parseStringBody t2 with
          | some (cs, rest) => some ('\t' :: cs, rest)
          | none => none
        else if e = 'u' then
          match t2 with
          | h1 :: h2 :: h3 :: h4 :: t6 =>
            if isHexCh h1 && isHexCh h2 && isHexCh h3 && isHexCh h4 then
              match parseStringBody t6 with
              | some (cs, rest) =>
                some (Char.ofNat (((hexVal h1 * 16 + hexVal h2) * 16 + hexVal h3) * 16 + hexVal h4) :: cs, rest)
              | none => none
            else none
          | _ => none
        else none
    else if c.val < 32 then none
    else
      match parseStringBody t with
      | some (cs, rest) => some (c :: cs, rest)
      | none => none

/-- Optional fraction and exponent of a JSON number, appended to the
lexeme accumulated so far. -/
def parseFracExp (acc : List Char) (s : List Char) : Option (List Char × List Char) :=
  let (acc1, s1) :=
    match s with
    | c :: t =>
      if c = '.' then
        (acc ++ c :: t.takeWhile isDigitCh, t.dropWhile isDigitCh)
      else (acc, s)
    | [] => (acc, s)
  if s1.length < s.length && (s.drop 1).takeWhile isDigitCh = [] then none
  else
    match s1 with
    | c :: t =>
      if c = 'e' ∨ c = 'E' then
        let (sgn, t1) :=
          match t with
          | c2 :: t2 => if c2 = '+' ∨ c2 = '-' then ([c2], t2) else ([], t)
          | [] => ([], t)
        let ds := t1.takeWhile isDigitCh
        if ds = [] then none
        else some (acc1 ++ c :: sgn ++ ds, t1.dropWhile isDigitCh)
      else some (acc1, s1)
    | [] => some (acc1, s1)

/-- A JSON number literal (JSON grammar: optional minus, integer part
with no leading zero, optional fraction, optional exponent). -/
def parseNumber (s : List Char) : Option (List Char × List Char) :=
  let (neg, s1) :=
    match s with
    | c :: t => if c = '-' then ([c], t) else (([] : List Char), s)
    | [] => ([], s)
  match s1 with
  | [] => none
  | c :: t =>
    if c = '0' then parseFracExp (neg ++ [c]) t
    else if isDigitCh c then
      parseFracExp (neg ++ c :: t.takeWhile isDigitCh) (t.dropWhile isDigitCh)
    else none

mutual

/-- Recursive-descent JSON value parser (fuelled); the input must start
directly with a value (callers skip whitespace). -/
def parseVal : Nat → List Char → Option (JsonVal × List Char)
  | 0, _ => none
  | _ + 1, [] => none
  | f + 1, c :: t =>
    if c = '"' then
      match parseStringBody t with
      | some (cs, rest) => some (JsonVal.str cs, rest)
      | none => none
    else if c = '[' then
      match skipJWs t with
      | [] => none
      | c2 :: t2 =>
        if c2 = ']' then some (JsonVal.arr [], t2)
        else
          match parseElems f (c2 :: t2) with
          | some (es, rest) => some (JsonVal.arr es, rest)
          | none => none
    else if c = '{' then
      match skipJWs t with
      | [] => none
      | c2 :: t2 =>
        if c2 = '}' then some (JsonVal.obj [], t2)
        else
          match parseMembers f (c2 :: t2) with
          | some (ms, rest) => some (JsonVal.obj ms, rest)
          | none => none
    else if leadsWith "true".data (c :: t) then some (JsonVal.bool true, (c :: t).drop 4)
    else if leadsWith "false".data (c :: t) then some (JsonVal.bool false, (c :: t).drop 5)
    else if leadsWith "null".data (c :: t) then some (JsonVal.null, (c :: t).drop 4)
    else
      match parseNumber (c :: t) with
      | some (raw, rest) => some (JsonVal.num raw, rest)
      | none => none

/-- One-or-more comma-separated array elements followed by `]`. -/
def parseElems : Nat → List Char → Option (List JsonVal × List Char)
  | 0, _ => none
  | f + 1, s =>
    match parseVal f s with
    | none => none
    | some (v, rest) =>
      match skipJWs rest with
      | [] => none
      | c :: t =>
        if c = ',' then
          match parseElems f (skipJWs t) with
          | some (vs, r2) => some (v :: vs, r2)
          | none => none
        else if c = ']' then some ([v], t)
        else none

/-- One-or-more comma-separated object members followed by `}`. -/
def parseMembers : Nat → List Char → Option (List (List Char × JsonVal) × List Char)
  | 0, _ => none
  | f + 1, s =>
    match s with
    | [] => none
    | c :: t =>
      if c = '"' then
        match parseStringBody t with
        | some (key, r1) =>
          match skipJWs r1 with
          | [] => none
          | c2 :: t2 =>
            if c2 = ':' then
              match parseVal f (skipJWs t2) with
              | some (v, r2) =>
                match skipJWs r2 with
                | [] => none
                | c3 :: t3 =>
                  if c3 = ',' then
                    match parseMembers f (skipJWs t3) with
                    | some (ms, r3) => some ((key, v) :: ms, r3)
                    | none => none
                  else if c3 = '}' then some ([(key, v)], t3)
                  else none
              | none => none
            else none
        | none => none
      else none

end

/-- `JSON.parse`: a single JSON value, optionally surrounded by
whitespace; anything else fails (in the source the raised exception is
caught at the call site). -/
def jsonParse (s : List Char) : Option JsonVal :=
  match parseVal (s.length + 1) (skipJWs s) with
  | some (v, rest) => if skipJWs rest = [] then some v else none
  | none => none

/--
The evidence-graph extraction of `geminiService.ts:121-140`: locate the
first fenced json block; if its (truthy, i.e. nonempty) capture parses
to a JSON array, trust the elements as evidence, delete the matched
block from the text and trim; on any failure return the original text
and no evidence.
-/
def extractEvidence (fullText : List Char) : List Char × List JsonVal :=
  match findJsonBlock fullText with
  | none => (fullText, [])
  | some (m0, m1) =>
    if m1.isEmpty then (fullText, [])
    else
      match jsonParse m1 with
      | some (JsonVal.arr l) => (jsTrim (replaceFirst fullText m0), l)
      | _ => (fullText, [])

/-- The parse result of the first fenced json block of `s`, if any. -/
def blockParse (s : List Char) : Option JsonVal :=
  match findJsonBlock s with
  | none => none
  | some (_, m1) => jsonParse m1

def isArr : JsonVal → Bool
  | JsonVal.arr _ => true
  | _ => false

/-- Whether `s` contains a triple-backtick fence at all. -/
def hasFence (s : List Char) : Bool := (findSub fence s).isSome

/-! ## Data model (`src/types.ts`) -/

inductive ModelMode where
  | fast
  | web
  | deep
deriving DecidableEq, Repr

structure Attachment where
  name : List Char
  mimeType : List Char
  data : List Char
deriving DecidableEq, Repr

structure GroundingWeb where
  uri : List Char
  title : List Char
deriving DecidableEq, Repr

structure GroundingChunk where
  web : Option GroundingWeb
deriving DecidableEq, Repr

inductive Role where
  | user
  | model
deriving DecidableEq, Repr

/-- A conversation turn (`Message` in `types.ts`); the optional list
fields default to empty lists. -/
structure Message where
  id : List Char
  role : Role
  text : List Char
  attachments : List Attachment
  groundingChunks : List GroundingChunk
  evidence : List JsonVal
  timestamp : Nat

/-! ## Model API boundary (`@google/genai` request/response shapes) -/

inductive Part where
  | text (t : List Char)
  | inlineData (mimeType : List Char) (data : List Char)
deriving DecidableEq, Repr

structure Content where
  role : Role
  parts : List Part
deriving DecidableEq, Repr

inductive Tool where
  | googleSearch
deriving DecidableEq, Repr

/-- The outbound request assembled by `generateResearchResponse`
(model name, contents and tool list; the mode-specific system
instruction text is not referenced by any verified property and is
not modelled). -/
structure Request where
  model : List Char
  contents : List Content
  tools : Option (List Tool)
deriving DecidableEq, Repr

structure GroundingMetadata where
  groundingChunks : Option (List GroundingChunk)
deriving DecidableEq, Repr

structure Candidate where
  groundingMetadata : Option GroundingMetadata
deriving DecidableEq, Repr

/-- The fields of the API response consumed by the Extractor:
`response.text` (absent or empty on a contentless success) and the
candidate list carrying native grounding metadata. -/
structure ApiResponse where
  text : Option (List Char)
  candidates : Option (List Candidate)

/-! ## Prompt Assembler (`geminiService.ts:61-119`) -/

/-- `geminiService.ts:70-73`: prior turns are serialized keeping the
role and a single text part. -/
def historyContents (history : List Message) : List Content :=
  history.map (fun msg => ⟨msg.role, [Part.text msg.text]⟩)

/-- The filename marker pushed before each attachment payload
(`geminiService.ts:80`). -/
def fileContextMarker (name : List Char) : List Char :=
  "[File Context: ".data ++ name ++ "]".data

/-- `geminiService.ts:76-90`: for each attachment push a filename
marker part then its inline payload part, then append the current
prompt text as the final part. -/
def buildCurrentParts (attachments : List Attachment) (currentPrompt : List Char) : List Part :=
  (attachments.foldl
    (fun parts att =>
      parts ++ [Part.text (fileContextMarker att.name),
                Part.inlineData att.mimeType att.data])
    []) ++ [Part.text currentPrompt]

/-- `geminiService.ts:92-106`: the mode → (model name, tools) branch
chain. -/
def modeConfig (mode : ModelMode) : List Char × Option (List Tool) :=
  if mode = ModelMode.deep then ("gemini-3-pro-preview".data, some [Tool.googleSearch])
  else if mode = ModelMode.web then ("gemini-2.5-flash".data, some [Tool.googleSearch])
  else ("gemini-2.5-flash".data, none)

/-- The request passed to `ai.models.generateContent`
(`geminiService.ts:109-119`). -/
def assembleRequest (currentPrompt : List Char) (history : List Message)
    (attachments : List Attachment) (mode : ModelMode) : Request :=
  ⟨(modeConfig mode).1,
   historyContents history ++ [⟨Role.user, buildCurrentParts attachments currentPrompt⟩],
   (modeConfig mode).2⟩

/-! ## Response Extractor, response side (`geminiService.ts:121-150`) -/

def noResponseMsg : List Char := "No response generated.".data

/-- `geminiService.ts:121`: `response.text || "No response generated."`
(in JavaScript both a missing and an empty text are falsy). -/
def responseText (r : ApiResponse) : List Char :=
  match r.text with
  | some t => if t.isEmpty then noResponseMsg else t
  | none => noResponseMsg

/-- `geminiService.ts:142-148`: native grounding chunks are taken from
`candidates[0]?.groundingMetadata?.groundingChunks` when that chain is
present, else the empty list. -/
def extractGrounding (r : ApiResponse) : List GroundingChunk :=
  match r.candidates with
  | some (c :: _) =>
    match c.groundingMetadata with
    | some gm =>
      match gm.groundingChunks with
      | some chunks => chunks
      | none => []
    | none => []
  | _ => []

/-- The Extractor's output type (`geminiService.ts:66` / return value at
line 150). -/
structure ResponseResult where
  text : List Char
  groundingChunks : List GroundingChunk
  evidence : List JsonVal

/-- The full response post-processing of `generateResearchResponse`. -/
def processResponse (r : ApiResponse) : ResponseResult :=
  let p := extractEvidence (responseText r)
  ⟨p.1, extractGrounding r, p.2⟩

/-! ## File ingestion (`src/utils.ts:17-39`) -/

/-- A file handed to `processFiles`: browser `File` metadata plus the
outcome of reading its bytes (`fileToBase64`); `content = none` models
an unreadable file whose read promise rejects. -/
structure JSFile where
  name : List Char
  type : List Char
  size : Nat
  content : Option (List Char)
deriving DecidableEq, Repr

/-- A `console.error` record emitted while processing a batch. -/
structure ConsoleError where
  message : List Char
deriving DecidableEq, Repr

def fileErrorMsg (name : List Char) : List Char :=
  "Failed to process file ".data ++ name

/-- The sequential per-file loop of `processFiles`: keep PDFs whose
bytes read successfully; log and drop a PDF whose read fails; skip any
other MIME type silently. -/
def processFilesGo : List JSFile → List Attachment × List ConsoleError
  | [] => ([], [])
  | f :: fs =>
    let rest := processFilesGo fs
    if f.type = "application/pdf".data then
      match f.content with
      | some d => (⟨f.name, f.type, d⟩ :: rest.1, rest.2)
      | none => (rest.1, ⟨fileErrorMsg f.name⟩ :: rest.2)
    else rest

/-- `processFiles` (`utils.ts:17-39`), returning the attachment batch
together with the `console.error` log. -/
def processFiles (files : Option (List JSFile)) : List Attachment × List ConsoleError :=
  match files with
  | none => ([], [])
  | some fs => processFilesGo fs

/-! ## UI collaborator (`src/components/ResearchInterface.tsx`) -/

/--
`handleSubmit` (`ResearchInterface.tsx:75-131`) up to the API call:
when the trimmed input is empty and no attachments are staged, or a
request is already in flight, the handler returns early and no request
is built; otherwise the call to `generateResearchResponse` receives
exactly the request assembled by the service.
-/
def handleSubmit (input : List Char) (attachments : List Attachment)
    (history : List Message) (mode : ModelMode) (isLoading : Bool) : Option Request :=
  if ((jsTrim input).isEmpty && attachments.isEmpty) || isLoading then none
  else some (assembleRequest input history attachments mode)

/-- The web-source links actually rendered for a turn
(`ResearchInterface.tsx:276-299`): shown only when the turn has no
evidence and a nonempty chunk list, and chunks without a `web` field
render nothing. -/
def renderedWebSources (msg : Message) : List GroundingWeb :=
  if msg.evidence.isEmpty && !msg.groundingChunks.isEmpty then
    msg.groundingChunks.filterMap (fun c => c.web)
  else []

/-! ## Specification-side descriptions

These definitions follow the specification's words (for refinement
comparisons against the embedded source functions above). -/

/-- Modelled from the spec: the accepted files of a batch — those of
the allowed MIME type whose bytes are readable, kept in supplied
order. -/
def specAcceptedFiles (files : List JSFile) : List JSFile :=
  files.filter (fun f => f.type = "application/pdf".data && f.content.isSome)

/-- Modelled from the spec: each accepted file contributes its filename
marker immediately followed by its payload, in order, and the current
user text is the final part. -/
def specAssembledParts (files : List JSFile) (prompt : List Char) : List Part :=
  ((specAcceptedFiles files).map
    (fun f => [Part.text (fileContextMarker f.name),
               Part.inlineData f.type (f.content.getD [])])).flatten
  ++ [Part.text prompt]

def partIsText : Part → Bool
  | Part.text _ => true
  | Part.inlineData _ _ => false

/-- A turn with its non-text payload removed (used to state that the
serialized history depends only on role and text). -/
def scrubHistoryExtras (m : Message) : Message :=
  ⟨m.id, m.role, m.text, [], [], [], m.timestamp⟩

/-! ## Concrete example inputs used by witnesses and counterexamples -/

/-- The round-trip example of the specification (§8). -/
def roundTripInput : List Char :=
  "Answer.\n```json\n[\x7b\"claim\":\"X\",\"sourceType\":\"web\",\"sourceName\":\"N\",\"sourceReference\":\"http://u\"\x7d]\n```".data

def roundTripBlock : List Char :=
  "```json\n[\x7b\"claim\":\"X\",\"sourceType\":\"web\",\"sourceName\":\"N\",\"sourceReference\":\"http://u\"\x7d]\n```".data

def roundTripJson : List Char :=
  "[\x7b\"claim\":\"X\",\"sourceType\":\"web\",\"sourceName\":\"N\",\"sourceReference\":\"http://u\"\x7d]".data

def roundTripItems : List JsonVal :=
  [JsonVal.obj
    [("claim".data, JsonVal.str "X".data),
     ("sourceType".data, JsonVal.str "web".data),
     ("sourceName".data, JsonVal.str "N".data),
     ("sourceReference".data, JsonVal.str "http://u".data)]]

/-- A model text whose fenced block encloses syntactically invalid
content. -/
def malformedBlockInput : List Char := "See ```json\nnot json\n``` end".data

/-- A model text holding two fenced json blocks: after the first block
is stripped, the second one is still present in the returned text. -/
def twoBlockInput : List Char := "A\n```json\n[1]\n```\nB\n```json\n[2]\n```".data

/-- A model text with a single fenced block and a fence-free remainder. -/
def oneBlockInput : List Char := "Q\n```json\n[true]\n```".data

/-- A PDF whose payload is a tebibyte: `processFiles` has no size
check, so it is accepted. -/
def bigPdf : JSFile := ⟨"big.pdf".data, "application/pdf".data, 2 ^ 40, some "QUJD".data⟩

/-- A non-PDF file: silently skipped by `processFiles` with no
per-file report. -/
def plainNotes : JSFile := ⟨"notes.txt".data, "text/plain".data, 3, some "abc".data⟩

def webEx : GroundingWeb := ⟨"https://ex.org".data, "Ex".data⟩

def chunkWithWeb : GroundingChunk := ⟨some webEx⟩

def chunkNoWeb : GroundingChunk := ⟨none⟩

def respEx : ApiResponse :=
  ⟨some "hi".data, some [⟨some ⟨some [chunkWithWeb, chunkNoWeb]⟩⟩]⟩

def msgEx : Message :=
  ⟨"m1".data, Role.model, "hi".data, [], [chunkWithWeb, chunkNoWeb], [], 0⟩

/-! ## Lemmas about the substring machinery -/

theorem leadsWith_take (n : Nat) (t : List Char) : leadsWith (t.take n) t = true := by
  induction t generalizing n with
  | nil => cases n <;> rfl
  | cons c cs ih =>
    cases n with
    | zero => rfl
    | succ m => simpa [List.take, leadsWith] using ih m

theorem leadsWith_append_left (p q t : List Char)
    (h : leadsWith (p ++ q) t = true) : leadsWith p t = true := by
  induction p generalizing t with
  | nil => rfl
  | cons x xs ih =>
    cases t with
    | nil => exact absurd h (by simp [leadsWith])
    | cons c cs =>
      simp only [List.cons_append, leadsWith, Bool.and_eq_true] at h ⊢
      exact ⟨h.1, ih cs h.2⟩

theorem findSub_some (pat s : List Char) (i : Nat) (h : findSub pat s = some i) :
    leadsWith pat (s.drop i) = true ∧ ∀ j, j < i → leadsWith pat (s.drop j) = false := by
  induction s generalizing i with
  | nil =>
    rw [findSub] at h
    by_cases hl : leadsWith pat [] = true
    · simp [hl] at h
      subst h
      exact ⟨hl, by omega⟩
    · simp [hl] at h
  | cons c cs ih =>
    rw [findSub] at h
    by_cases hl : leadsWith pat (c :: cs) = true
    · simp [hl] at h
      subst h
      exact ⟨hl, by omega⟩
    · simp [hl] at h
      obtain ⟨i', hi', rfl⟩ := h
      obtain ⟨h1, h2⟩ := ih i' hi'
      refine ⟨h1, ?_⟩
      intro j hj
      cases j with
      | zero => simpa using Bool.not_eq_true _ ▸ (by simpa using hl)
      | succ j' => exact h2 j' (by omega)

theorem findSub_isSome_of_occurs (pat s : List Char) (k : Nat)
    (h : leadsWith pat (s.drop k) = true) : (findSub pat s).isSome = true := by
  induction s generalizing k with
  | nil =>
    simp only [List.drop_nil] at h
    rw [findSub, h]
    rfl
  | cons c cs ih =>
    rw [findSub]
    by_cases hl : leadsWith pat (c :: cs) = true
    · simp [hl]
    · simp only [hl, if_false]
      cases k with
      | zero => exact absurd h hl
      | succ k' =>
        have := ih k' (by simpa using h)
        cases hf : findSub pat cs with
        | none => rw [hf] at this; exact absurd this (by simp)
        | some j => simp [hf]

theorem jsonParse_nil : jsonParse [] = none := rfl

theorem findJsonBlock_occurs (s m0 m1 : List Char)
    (h : findJsonBlock s = some (m0, m1)) :
    ∃ k, leadsWith m0 (s.drop k) = true := by
  rw [findJsonBlock] at h
  cases hi : findSub fenceJson s with
  | none => rw [hi] at h; exact absurd h (by simp)
  | some i =>
    rw [hi] at h
    dsimp only at h
    cases hj : findSub fence (s.drop (i + 7)) with
    | none => rw [hj] at h; exact absurd h (by simp)
    | some j =>
      rw [hj] at h
      simp only [Option.some.injEq, Prod.mk.injEq] at h
      exact ⟨i, h.1 ▸ leadsWith_take _ _⟩

theorem findJsonBlock_eq_none_of_noFence (t : List Char)
    (h : hasFence t = false) : findJsonBlock t = none := by
  rw [findJsonBlock]
  cases hi : findSub fenceJson t with
  | none => rfl
  | some i =>
    exfalso
    have h1 := (findSub_some fenceJson t i hi).1
    have h2 : leadsWith fence (t.drop i) = true :=
      leadsWith_append_left fence "json".data _ h1
    have h3 := findSub_isSome_of_occurs fence t i h2
    rw [hasFence] at h
    rw [h] at h3
    exact absurd h3 (by simp)

theorem extractEvidence_of_noBlock (t : List Char)
    (h : findJsonBlock t = none) : extractEvidence t = (t, []) := by
  rw [extractEvidence, h]

theorem dropWhile_eq_nil_of_all (p : Char → Bool) (s : List Char) (h : s.all p = true) :
    s.dropWhile p = [] := by
  induction s with
  | nil => rfl
  | cons c cs ih =>
    simp only [List.all_cons, Bool.and_eq_true] at h
    simp [List.dropWhile, h.1, ih h.2]

theorem jsTrim_of_allWs (s : List Char) (h : s.all isJsWs = true) : jsTrim s = [] := by
  rw [jsTrim, dropWhile_eq_nil_of_all isJsWs s h]
  rfl

theorem foldl_push2 (atts : List Attachment) (init : List Part) :
    atts.foldl
      (fun parts att =>
        parts ++ [Part.text (fileContextMarker att.name),
                  Part.inlineData att.mimeType att.data]) init
    = init ++
      (atts.map (fun a => [Part.text (fileContextMarker a.name),
                           Part.inlineData a.mimeType a.data])).flatten := by
  induction atts generalizing init with
  | nil => simp
  | cons a as ih => simp [List.foldl_cons, ih, List.append_assoc]

theorem buildCurrentParts_eq (atts : List Attachment) (prompt : List Char) :
    buildCurrentParts atts prompt
    = (atts.map (fun a => [Part.text (fileContextMarker a.name),
                           Part.inlineData a.mimeType a.data])).flatten
      ++ [Part.text prompt] := by
  rw [buildCurrentParts, foldl_push2]
  simp

theorem processFilesGo_eq (fs : List JSFile) :
    processFilesGo fs
    = ((specAcceptedFiles fs).map
         (fun f => (⟨f.name, f.type, f.content.getD []⟩ : Attachment)),
       (fs.filter (fun f => f.type = "application/pdf".data && f.content.isNone)).map
         (fun f => (⟨fileErrorMsg f.name⟩ : ConsoleError))) := by
  induction fs with
  | nil => rfl
  | cons f fs ih =>
    rw [processFilesGo, ih, specAcceptedFiles]
    by_cases ht : f.type = "application/pdf".data
    · cases hc : f.content with
      | some d => simp [specAcceptedFiles, List.filter_cons, ht, hc]
      | none => simp [specAcceptedFiles, List.filter_cons, ht, hc]
    · simp [specAcceptedFiles, List.filter_cons, ht]

theorem extractGrounding_present (r : ApiResponse) (c : Candidate) (cs : List Candidate)
    (gm : GroundingMetadata) (chunks : List GroundingChunk)
    (hc : r.candidates = some (c :: cs)) (hgm : c.groundingMetadata = some gm)
    (hk : gm.groundingChunks = some chunks) : extractGrounding r = chunks := by
  obtain ⟨rt, rcand⟩ := r
  have h1 : rcand = some (c :: cs) := hc
  subst h1
  show (match c.groundingMetadata with
    | some gm =>
      match gm.groundingChunks with
      | some chunks => chunks
      | none => []
    | none => []) = chunks
  rw [hgm]
  dsimp only
  rw [hk]

/-! ## Claims -/

/--
Claim C1: for every raw model text containing a valid fenced json
structured block whose content parses to a JSON list of N items, the
Extractor returns evidence with exactly those N items, and text equal
to the original text with the first occurrence of the matched block
excised and surrounding whitespace trimmed.
-/
theorem extractor_roundtrip (s m0 m1 : List Char) (l : List JsonVal)
    (hfind : findJsonBlock s = some (m0, m1))
    (hparse : jsonParse m1 = some (JsonVal.arr l)) :
    (extractEvidence s).2 = l ∧ (extractEvidence s).2.length = l.length ∧
    ∃ i, leadsWith m0 (s.drop i) = true ∧
      (∀ j, j < i → leadsWith m0 (s.drop j) = false) ∧
      (extractEvidence s).1 = jsTrim (s.take i ++ s.drop (i + m0.length)) := by
  have hm1 : m1.isEmpty = false := by
    cases m1 with
    | nil => rw [jsonParse_nil] at hparse; exact absurd hparse (by simp)
    | cons c cs => rfl
  have hext : extractEvidence s = (jsTrim (replaceFirst s m0), l) := by
    rw [extractEvidence, hfind]
    simp only [hm1, Bool.false_eq_true, if_false]
    rw [hparse]
  obtain ⟨k, hk⟩ := findJsonBlock_occurs s m0 m1 hfind
  have hsome := findSub_isSome_of_occurs m0 s k hk
  cases hfs : findSub m0 s with
  | none => rw [hfs] at hsome; exact absurd hsome (by simp)
  | some i =>
    obtain ⟨h1, h2⟩ := findSub_some m0 s i hfs
    have hrep : replaceFirst s m0 = s.take i ++ s.drop (i + m0.length) := by
      rw [replaceFirst, hfs]
    exact ⟨by rw [hext], by rw [hext], i, h1, h2, by rw [hext, hrep]⟩

/-- Witness for C1 at the specification's own round-trip example. -/
theorem extractor_roundtrip_witness :
    (extractEvidence roundTripInput).2 = roundTripItems ∧
    (extractEvidence roundTripInput).1 = "Answer.".data :=
  ⟨(extractor_roundtrip roundTripInput roundTripBlock roundTripJson roundTripItems
      (by rfl) (by rfl)).1,
   by rfl⟩

/--
Claim C2: whenever no fenced json block is found, or a block is found
whose content does not parse to a JSON list, the Extractor returns
empty evidence and the unmodified original text, and raises no error.
-/
theorem extractor_recovers (s : List Char)
    (h : (blockParse s).map isArr ≠ some true) :
    extractEvidence s = (s, []) := by
  rw [extractEvidence]
  cases hb : findJsonBlock s with
  | none => rfl
  | some p =>
    obtain ⟨m0, m1⟩ := p
    dsimp only
    by_cases he : m1.isEmpty
    · simp [he]
    · simp only [he, if_false]
      cases hp : jsonParse m1 with
      | none => rfl
      | some v =>
        cases v with
        | arr l =>
          exact absurd (by simp [blockParse, hb, hp, isArr]) h
        | null => rfl
        | bool b => rfl
        | num raw => rfl
        | str t => rfl
        | obj ms => rfl

/-- Witness for C2 at a text whose block content is invalid. -/
theorem extractor_recovers_witness :
    extractEvidence malformedBlockInput = (malformedBlockInput, []) :=
  extractor_recovers malformedBlockInput (by decide)

/--
Claim C3, counterexample: extraction is not idempotent in general —
on a text with two fenced blocks, the second run over the stripped
output extracts the second block, so its evidence is nonempty.
-/
theorem extractor_not_idempotent :
    extractEvidence ((extractEvidence twoBlockInput).1)
      ≠ ((extractEvidence twoBlockInput).1, ([] : List JsonVal)) := by
  intro h
  have h2 : (extractEvidence ((extractEvidence twoBlockInput).1)).2 = [] := by rw [h]
  have h3 : (extractEvidence ((extractEvidence twoBlockInput).1)).2
      = [JsonVal.num "2".data] := by rfl
  rw [h3] at h2
  exact List.cons_ne_nil _ _ h2

/--
Claim C3 (amended): a second Extractor run yields empty evidence and
the unchanged text whenever the first run either stripped a block and
left a text free of triple-backtick fences, or left the text unchanged
with no evidence.
-/
theorem extractor_idempotent_on_clean (s : List Char)
    (h : hasFence ((extractEvidence s).1) = false ∨ extractEvidence s = (s, [])) :
    extractEvidence ((extractEvidence s).1) = ((extractEvidence s).1, []) := by
  cases h with
  | inl hf =>
    exact extractEvidence_of_noBlock _ (findJsonBlock_eq_none_of_noFence _ hf)
  | inr he =>
    rw [he]
    exact he

/-- Witness for the amended C3 at a single-block text. -/
theorem extractor_idempotent_on_clean_witness :
    extractEvidence ((extractEvidence oneBlockInput).1)
      = ((extractEvidence oneBlockInput).1, []) :=
  extractor_idempotent_on_clean oneBlockInput (Or.inl (by rfl))

/--
Claim C4: with whitespace-only (or empty) input text and no staged
attachments, the submit pipeline rejects the turn before assembling a
request, so no model API call is made.
-/
theorem submit_rejects_empty (input : List Char) (attachments : List Attachment)
    (history : List Message) (mode : ModelMode) (isLoading : Bool)
    (hws : input.all isJsWs = true) (hatt : attachments = []) :
    handleSubmit input attachments history mode isLoading = none := by
  subst hatt
  rw [handleSubmit, jsTrim_of_allWs input hws]
  simp

/-- Witness for C4 at a whitespace-only input. -/
theorem submit_rejects_empty_witness :
    handleSubmit " \n".data [] [] ModelMode.web false = none :=
  submit_rejects_empty " \n".data [] [] ModelMode.web false (by decide) rfl

/--
Claim C5: mode `fast` assembles a request with no tools; `web` and
`deep` enable the search tool; `deep` selects the higher-capability
model variant and `web`/`fast` the lighter one.
-/
theorem mode_policy_mapping (p : List Char) (hist : List Message) (atts : List Attachment) :
    (assembleRequest p hist atts ModelMode.fast).tools = none ∧
    (assembleRequest p hist atts ModelMode.web).tools = some [Tool.googleSearch] ∧
    (assembleRequest p hist atts ModelMode.deep).tools = some [Tool.googleSearch] ∧
    (assembleRequest p hist atts ModelMode.deep).model = "gemini-3-pro-preview".data ∧
    (assembleRequest p hist atts ModelMode.web).model = "gemini-2.5-flash".data ∧
    (assembleRequest p hist atts ModelMode.fast).model = "gemini-2.5-flash".data :=
  ⟨rfl, rfl, rfl, rfl, rfl, rfl⟩

/--
Claim C6: rejected-MIME files never appear in the assembled parts;
each accepted file contributes its filename marker immediately
followed by its payload, in supplied order; and the current user text
is the final content part even when empty.
-/
theorem attachment_parts_shape (files : List JSFile) (atts : List Attachment)
    (prompt : List Char) :
    buildCurrentParts atts prompt
      = (atts.map (fun a => [Part.text (fileContextMarker a.name),
                             Part.inlineData a.mimeType a.data])).flatten
        ++ [Part.text prompt] ∧
    buildCurrentParts (processFiles (some files)).1 prompt
      = specAssembledParts files prompt ∧
    (buildCurrentParts atts prompt).getLast? = some (Part.text prompt) := by
  refine ⟨buildCurrentParts_eq atts prompt, ?_, ?_⟩
  · have hp : (processFiles (some files)).1
        = (specAcceptedFiles files).map
            (fun f => (⟨f.name, f.type, f.content.getD []⟩ : Attachment)) := by
      rw [show processFiles (some files) = processFilesGo files from rfl, processFilesGo_eq]
    rw [hp, buildCurrentParts_eq, specAssembledParts]
    rw [List.map_map]
    rfl
  · rw [buildCurrentParts]
    exact List.getLast?_concat _

/--
Claim C7: serialized history preserves only role and plain text;
attachments, evidence and grounding chunks held on history turns never
influence the serialized form, and every serialized part is a text
part.
-/
theorem history_role_text_only (history : List Message) :
    historyContents (history.map scrubHistoryExtras) = historyContents history ∧
    (historyContents history).map (fun c => c.role) = history.map (fun m => m.role) ∧
    (historyContents history).map (fun c => c.parts)
      = history.map (fun m => [Part.text m.text]) ∧
    ((historyContents history).map (fun c => c.parts)).flatten.all partIsText = true := by
  refine ⟨?_, ?_, ?_, ?_⟩
  · rw [historyContents, historyContents, List.map_map]
    rfl
  · rw [historyContents, List.map_map]
    rfl
  · rw [historyContents, List.map_map]
    rfl
  · induction history with
    | nil => rfl
    | cons m hs ih => simp [historyContents, partIsText]

/--
Claim C8, counterexample: `processFiles` performs no payload-size
check — a one-tebibyte PDF reaches the core — and a rejected-MIME file
is dropped silently, with no per-file report to the caller.
-/
theorem file_batch_no_size_check :
    (processFiles (some [bigPdf, plainNotes])).1
      = [⟨"big.pdf".data, "application/pdf".data, "QUJD".data⟩] ∧
    (processFiles (some [bigPdf, plainNotes])).2 = [] ∧
    bigPdf.size = 2 ^ 40 :=
  ⟨rfl, rfl, rfl⟩

/--
Claim C8 (amended): files of a rejected MIME type are silently dropped
before reaching the core (no size check, no per-file report); a file
whose bytes cannot be read is dropped with a logged error while the
rest of the batch is still processed; a per-file failure is never
fatal to the whole batch.
-/
theorem file_batch_processing (files : List JSFile) :
    processFiles (some files)
      = ((specAcceptedFiles files).map
           (fun f => (⟨f.name, f.type, f.content.getD []⟩ : Attachment)),
         (files.filter (fun f => f.type = "application/pdf".data && f.content.isNone)).map
           (fun f => (⟨fileErrorMsg f.name⟩ : ConsoleError))) :=
  processFilesGo_eq files

/--
Claim C9: grounding chunks are copied through unchanged from the
native metadata when present (empty list otherwise); entries lacking a
web field are passed through by the Extractor and filtered out only by
the calling UI at display time.
-/
theorem grounding_passthrough (r : ApiResponse) (c : Candidate) (cs : List Candidate)
    (gm : GroundingMetadata) (chunks : List GroundingChunk) (msg : Message)
    (hc : r.candidates = some (c :: cs)) (hgm : c.groundingMetadata = some gm)
    (hk : gm.groundingChunks = some chunks)
    (hmc : msg.groundingChunks = chunks) (hev : msg.evidence = []) :
    (processResponse r).groundingChunks = chunks ∧
    renderedWebSources msg = chunks.filterMap (fun ch => ch.web) ∧
    (∀ r2 : ApiResponse, r2.candidates = none →
      (processResponse r2).groundingChunks = []) ∧
    (∀ r2 : ApiResponse, r2.candidates = some [] →
      (processResponse r2).groundingChunks = []) ∧
    (∀ (r2 : ApiResponse) (c2 : Candidate) (cs2 : List Candidate),
      r2.candidates = some (c2 :: cs2) → c2.groundingMetadata = none →
      (processResponse r2).groundingChunks = []) ∧
    (∀ (r2 : ApiResponse) (c2 : Candidate) (cs2 : List Candidate) (gm2 : GroundingMetadata),
      r2.candidates = some (c2 :: cs2) → c2.groundingMetadata = some gm2 →
      gm2.groundingChunks = none →
      (processResponse r2).groundingChunks = []) := by
  refine ⟨?_, ?_, ?_, ?_, ?_, ?_⟩
  · show extractGrounding r = chunks
    exact extractGrounding_present r c cs gm chunks hc hgm hk
  · rw [renderedWebSources, hmc, hev]
    cases chunks with
    | nil => simp
    | cons ch rest => simp
  · intro r2 h2
    show extractGrounding r2 = []
    obtain ⟨rt, rcand⟩ := r2
    have h3 : rcand = none := h2
    subst h3
    rfl
  · intro r2 h2
    show extractGrounding r2 = []
    obtain ⟨rt, rcand⟩ := r2
    have h3 : rcand = some [] := h2
    subst h3
    rfl
  · intro r2 c2 cs2 h2 hg2
    show extractGrounding r2 = []
    obtain ⟨rt, rcand⟩ := r2
    have h3 : rcand = some (c2 :: cs2) := h2
    subst h3
    show (match c2.groundingMetadata with
      | some gm =>
        match gm.groundingChunks with
        | some chunks => chunks
        | none => []
      | none => []) = []
    rw [hg2]
  · intro r2 c2 cs2 gm2 h2 hg2 hk2
    show extractGrounding r2 = []
    obtain ⟨rt, rcand⟩ := r2
    have h3 : rcand = some (c2 :: cs2) := h2
    subst h3
    show (match c2.groundingMetadata with
      | some gm =>
        match gm.groundingChunks with
        | some chunks => chunks
        | none => []
      | none => []) = []
    rw [hg2]
    dsimp only
    rw [hk2]

/-- Witness for C9: a chunk without a web field passes through the
Extractor and is dropped only by the rendering UI. -/
theorem grounding_passthrough_witness :
    (processResponse respEx).groundingChunks = [chunkWithWeb, chunkNoWeb] ∧
    renderedWebSources msgEx = [chunkWithWeb, chunkNoWeb].filterMap (fun ch => ch.web) :=
  ⟨(grounding_passthrough respEx ⟨some ⟨some [chunkWithWeb, chunkNoWeb]⟩⟩ []
      ⟨some [chunkWithWeb, chunkNoWeb]⟩ [chunkWithWeb, chunkNoWeb] msgEx
      rfl rfl rfl rfl rfl).1,
   (grounding_passthrough respEx ⟨some ⟨some [chunkWithWeb, chunkNoWeb]⟩⟩ []
      ⟨some [chunkWithWeb, chunkNoWeb]⟩ [chunkWithWeb, chunkNoWeb] msgEx
      rfl rfl rfl rfl rfl).2.1⟩

/--
Claim C10: when the API call succeeds but the response carries no text
(missing or empty), the Extractor returns exactly the literal
placeholder text and empty evidence.
-/
theorem empty_response_placeholder (r : ApiResponse)
    (h : r.text = none ∨ r.text = some []) :
    (processResponse r).text = noResponseMsg ∧ (processResponse r).evidence = [] := by
  obtain ⟨rt, rcand⟩ := r
  have ht : responseText ⟨rt, rcand⟩ = noResponseMsg := by
    cases h with
    | inl h1 =>
      have h2 : rt = none := h1
      subst h2
      rfl
    | inr h1 =>
      have h2 : rt = some [] := h1
      subst h2
      rfl
  have hx : extractEvidence noResponseMsg = (noResponseMsg, []) := by rfl
  constructor
  · show (extractEvidence (responseText ⟨rt, rcand⟩)).1 = noResponseMsg
    rw [ht, hx]
  · show (extractEvidence (responseText ⟨rt, rcand⟩)).2 = []
    rw [ht, hx]

/-- Witness for C10 at a response with absent text. -/
theorem empty_response_placeholder_witness :
    (processResponse ⟨none, none⟩).text = noResponseMsg ∧
    (processResponse ⟨none, none⟩).evidence = [] :=
  empty_response_placeholder ⟨none, none⟩ (Or.inl rfl)

end AIRA
